import Mathlib

/-!
Verification development for the LPM/UPM micro-benchmark driver (`pm.cpp`).

The program is shallowly embedded as follows.

* C++ `double` values are modelled exactly: finite values as rationals (`ℚ`),
  and the parsed command-line parameters over the full `double` domain `DVal`
  (finite, signed infinity, NaN), since `std::stod` accepts `inf`/`nan`
  spellings.  The external kernels `NNS::LPM` / `NNS::UPM` are an opaque
  dependency, modelled as abstract per-invocation result streams `Nat → ℚ`
  (the value returned by the n-th call to the kernel), which also covers the
  stateful test doubles the specification uses to observe warm-up isolation.
* `std::mt19937_64` + `std::normal_distribution<double>` (seeded with the
  fixed constant `123456789`) form one deterministic draw stream, modelled as
  an abstract function `draws : Nat → ℚ` giving the i-th generated sample.
* The `std::chrono::steady_clock` is modelled as an abstract function
  `clock : Nat → Int` giving the reading (in nanoseconds) returned by the
  k-th call to `clock_type::now()` during the run.
* `std::size_t` is 64 bits wide; `static_cast<std::size_t>` of a negative
  `long long` reduces modulo `2^64` (`toSizeT`).
* Each kernel invocation performed by `main` is recorded as a `KCall` event
  carrying the kernel, the program phase (warm-up pass vs timed loop), and
  the exact arguments passed; the final `RunResult` carries the generated
  data, the event trace, the `guard` accumulator and the printed report.
-/

namespace PM

/-- Characters accepted as leading whitespace by `std::stoll` / `std::stod`
(the C locale `isspace` set). -/
def isSpace (c : Char) : Bool :=
  c == ' ' || c == '\t' || c == '\n' || c == '\x0b' || c == '\x0c' || c == '\r'

/-- Numeric value of a list of decimal digit characters, most significant
digit first. -/
def digitsToNat (ds : List Char) : Nat :=
  ds.foldl (fun a c => 10 * a + (c.toNat - 48)) 0

/-- Model of `std::stoll` as called at `pm.cpp` line 51: skip leading
whitespace, read an optional sign and then a non-empty run of decimal digits
(trailing characters are ignored); no digits, or a value outside the range of
`long long`, raises an exception, modelled as `none`. -/
def stoll (s : String) : Option Int :=
  let cs := s.data.dropWhile isSpace
  let sc : Int × List Char :=
    match cs with
    | '+' :: r => (1, r)
    | '-' :: r => (-1, r)
    | r => (1, r)
  let ds := sc.2.takeWhile Char.isDigit
  if ds.isEmpty then none
  else
    let v : Int := sc.1 * (digitsToNat ds : Int)
    if v < -(2 ^ 63) ∨ (2 ^ 63 - 1 : Int) < v then none else some v

/-- A hexadecimal digit of the C `strtod` hexadecimal-floating grammar. -/
def isHexDigitCh (c : Char) : Bool :=
  c.isDigit || (97 ≤ c.toNat && c.toNat ≤ 102) || (65 ≤ c.toNat && c.toNat ≤ 70)

/-- Numeric value of one hexadecimal digit character. -/
def hexDigitVal (c : Char) : Nat :=
  if c.isDigit then c.toNat - 48
  else if 97 ≤ c.toNat then c.toNat - 87
  else c.toNat - 55

/-- Numeric value of a list of hexadecimal digit characters, most significant
digit first. -/
def hexDigitsToNat (ds : List Char) : Nat :=
  ds.foldl (fun a c => 16 * a + hexDigitVal c) 0

/-- The value domain of `double` as produced by `std::stod`: a finite value
(an exact rational in this idealisation, which carries no binary64 rounding),
a signed infinity, or NaN. -/
inductive DVal
  | finite (q : ℚ)
  | posInf
  | negInf
  | nan
deriving DecidableEq

/-- Assemble the result of a finite `std::stod` parse from the exact value
`num / den`, modelling the mandated `out_of_range` failure: `strtod` reports
`ERANGE` and `std::stod` throws whenever the converted value overflows, i.e.
whenever round-to-nearest-even would carry the exact value to infinity —
`|num / den| ≥ (2^54 - 1) * 2^970`, the midpoint between the largest finite
`double` `(2^53 - 1) * 2^971` and `2^1024` (the midpoint itself rounds to the
even significand, infinity).  `ERANGE` on *underflow* (tiny non-zero values)
is left out: C11 7.22.1.3 makes it implementation-defined whether `errno`
acquires `ERANGE` there (glibc flags subnormal and zero results, musl only
zero), and the exact-value idealisation has no rounding with which to decide
it, so the fatality theorems simply do not cover that implementation-defined
corner. -/
def finiteOrRange (num : Int) (den : Nat) : Option DVal :=
  if (2 ^ 54 - 1) * 2 ^ 970 * den ≤ num.natAbs then none
  else some (DVal.finite (mkRat num den))

/-- The decimal branch of the `strtod` grammar: a (possibly empty) run of
integer digits, an optional fraction part, and an optional decimal exponent
(`e`/`E`); at least one mantissa digit is required, otherwise no conversion
is possible (`std::invalid_argument`, modelled as `none`). -/
def stodDec (sgn : Int) (cs : List Char) : Option DVal :=
  let ip := cs.takeWhile Char.isDigit
  let cs2 := cs.dropWhile Char.isDigit
  let fc : List Char × List Char :=
    match cs2 with
    | '.' :: r => (r.takeWhile Char.isDigit, r.dropWhile Char.isDigit)
    | r => ([], r)
  if ip.isEmpty && fc.1.isEmpty then none
  else
    let mant : Int := sgn * (digitsToNat (ip ++ fc.1) : Int)
    let scale : Nat := 10 ^ fc.1.length
    match fc.2 with
    | c :: r =>
      if c == 'e' || c == 'E' then
        let es : Bool × List Char :=
          match r with
          | '+' :: rr => (true, rr)
          | '-' :: rr => (false, rr)
          | rr => (true, rr)
        let eds := es.2.takeWhile Char.isDigit
        if eds.isEmpty then finiteOrRange mant scale
        else if es.1 then finiteOrRange (mant * (10 ^ digitsToNat eds : Nat)) scale
        else finiteOrRange mant (scale * 10 ^ digitsToNat eds)
      else finiteOrRange mant scale
    | [] => finiteOrRange mant scale

/-- The hexadecimal branch of the `strtod` grammar, entered after a `0x`/`0X`
prefix: hexadecimal mantissa digits with an optional fraction part and an
optional binary exponent (`p`/`P`, decimal digits, power of two).  With no
hexadecimal digit at all the longest valid subject sequence is just the
leading `0`, so the value is 0. -/
def stodHex (sgn : Int) (cs : List Char) : Option DVal :=
  let ip := cs.takeWhile isHexDigitCh
  let cs2 := cs.dropWhile isHexDigitCh
  let fc : List Char × List Char :=
    match cs2 with
    | '.' :: r => (r.takeWhile isHexDigitCh, r.dropWhile isHexDigitCh)
    | r => ([], r)
  if ip.isEmpty && fc.1.isEmpty then some (DVal.finite 0)
  else
    let mant : Int := sgn * (hexDigitsToNat (ip ++ fc.1) : Int)
    let scale : Nat := 16 ^ fc.1.length
    match fc.2 with
    | c :: r =>
      if c == 'p' || c == 'P' then
        let es : Bool × List Char :=
          match r with
          | '+' :: rr => (true, rr)
          | '-' :: rr => (false, rr)
          | rr => (true, rr)
        let eds := es.2.takeWhile Char.isDigit
        if eds.isEmpty then finiteOrRange mant scale
        else if es.1 then finiteOrRange (mant * (2 ^ digitsToNat eds : Nat)) scale
        else finiteOrRange mant (scale * 2 ^ digitsToNat eds)
      else finiteOrRange mant scale
    | [] => finiteOrRange mant scale

/-- Model of `std::stod` as called at `pm.cpp` lines 52-53 (the C `strtod`
grammar): skip leading whitespace and an optional sign, then accept the
case-insensitive spellings `inf`/`infinity` (infinity of that sign) and
`nan`/`nan(...)` (NaN), hexadecimal floating constants after `0x`/`0X`, or a
decimal floating constant; trailing characters are ignored.  No possible
conversion raises `std::invalid_argument` and an overflowing value raises
`std::out_of_range`, both fatal to the program and both modelled as `none`
(see `finiteOrRange` for the exact overflow boundary and the
implementation-defined underflow corner that is deliberately out of scope). -/
def stod (s : String) : Option DVal :=
  let cs := s.data.dropWhile isSpace
  let sc : Int × List Char :=
    match cs with
    | '+' :: r => (1, r)
    | '-' :: r => (-1, r)
    | r => (1, r)
  match (sc.2.take 3).map Char.toLower with
  | ['i', 'n', 'f'] => some (if sc.1 = 1 then DVal.posInf else DVal.negInf)
  | ['n', 'a', 'n'] => some DVal.nan
  | _ =>
    match sc.2 with
    | '0' :: x :: r =>
      if x == 'x' || x == 'X' then stodHex sc.1 r
      else stodDec sc.1 sc.2
    | _ => stodDec sc.1 sc.2

/-- `static_cast<std::size_t>` applied to a `long long` value
(`pm.cpp` line 51): reduction modulo `2^64`. -/
def toSizeT (v : Int) : Nat :=
  (v % (2 ^ 64 : Int)).toNat

/-- The Argument Resolver, `pm.cpp` lines 47-53: positional tokens
`argv[1] argv[2] argv[3]` (here `args[0] args[1] args[2]`) give sample size,
degree and target; missing tokens keep the defaults
`(12'000'000ULL, 2.0, 0.0)`; a failed parse aborts the program (`none`). -/
def resolveParams (args : List String) : Option (Nat × DVal × DVal) := do
  let N : Nat ← match args[0]? with
    | none => some 12000000
    | some t => Option.map toSizeT (stoll t)
  let degree : DVal ← match args[1]? with
    | none => some (DVal.finite 2)
    | some t => stod t
  let target : DVal ← match args[2]? with
    | none => some (DVal.finite 0)
    | some t => stod t
  some (N, degree, target)

/-- `std::numeric_limits<long long>::max()`, the seed of the best-of-N fold
at `pm.cpp` line 40. -/
def LLONG_MAX : Int := 9223372036854775807

/-- `time_ms` (`pm.cpp` lines 30-36): read the steady clock, run the
computation, read the clock again, and return the elapsed time converted to
whole milliseconds (`duration_cast` truncates toward zero, `Int.tdiv`).
The computation is a state transformer `fn : σ → σ`; `k` counts the clock
reads made so far, so the two reads of this call are `clock k` and
`clock (k+1)`. -/
def time_ms {σ : Type} (clock : Nat → Int) (fn : σ → σ) (s : σ) (k : Nat) :
    (σ × Nat) × Int :=
  let t0 := clock k
  let s1 := fn s
  let t1 := clock (k + 1)
  ((s1, k + 2), Int.tdiv (t1 - t0) 1000000)

/-- The loop body of `bench_best_ms` (`pm.cpp` line 41):
`for (int i = 0; i < reps; ++i) best = std::min(best, time_ms(fn));`,
unrolled over the remaining iteration count. -/
def benchLoop {σ : Type} (clock : Nat → Int) (fn : σ → σ) :
    Nat → σ × Nat → Int → (σ × Nat) × Int
  | 0, sk, best => (sk, best)
  | n + 1, (s, k), best =>
    let r := time_ms clock fn s k
    benchLoop clock fn n r.1 (min best r.2)

/-- `bench_best_ms` (`pm.cpp` lines 38-43): run the computation `reps` times
(the C++ loop executes `max reps 0` iterations, i.e. `reps.toNat`), tracking
the minimum per-execution duration starting from `LLONG_MAX`.  Returns the
final state, the final clock-read count, and the best duration. -/
def bench_best_ms {σ : Type} (clock : Nat → Int) (fn : σ → σ) (reps : Int)
    (sk : σ × Nat) : (σ × Nat) × Int :=
  benchLoop clock fn reps.toNat sk LLONG_MAX

/-- The list of per-execution elapsed durations, in whole milliseconds, that
`bench_best_ms` observes when its first clock read is read number `k0`:
iteration `i` is timed by clock reads `k0 + 2*i` and `k0 + 2*i + 1`. -/
def durList (clock : Nat → Int) (k0 n : Nat) : List Int :=
  (List.range n).map fun i => Int.tdiv (clock (k0 + 2 * i + 1) - clock (k0 + 2 * i)) 1000000

/-- The two external kernels of `pm.cpp` line 26. -/
inductive Kernel
  | lpm
  | upm
deriving DecidableEq

/-- Where in `main` a kernel invocation originates: the warm-up pass
(lines 62-64) or one of the timed loops (lines 69-76). -/
inductive Phase
  | warmup
  | timed
deriving DecidableEq

/-- One kernel invocation performed by `main`, with the exact arguments
passed to it. -/
structure KCall where
  ker : Kernel
  phase : Phase
  degree : DVal
  data : List ℚ
  target : DVal
deriving DecidableEq

/-- The mutable state of `main`: the trace of kernel invocations so far, the
`volatile double guard` accumulator (line 62), the displayed values `lpm_val`
and `upm_val` (line 66), and per-kernel invocation counters indexing into the
abstract kernel result streams. -/
structure St where
  events : List KCall
  guard : ℚ
  lpm_val : ℚ
  upm_val : ℚ
  lpmCalls : Nat
  upmCalls : Nat
deriving DecidableEq

/-- Invoke one kernel: record the call event with its arguments, return the
value produced by the kernel's result stream at the current call index, and
bump that kernel's call counter.  `lpmRes n` / `upmRes n` is the value the
external kernel returns on its n-th invocation (constant streams model the
pure kernels; arbitrary streams model the stateful test doubles of the
specification). -/
def kcall (lpmRes upmRes : Nat → ℚ) (ker : Kernel) (phase : Phase)
    (degree : DVal) (x : List ℚ) (target : DVal) (s : St) : ℚ × St :=
  match ker with
  | Kernel.lpm =>
    (lpmRes s.lpmCalls,
      { s with events := s.events ++ [⟨Kernel.lpm, phase, degree, x, target⟩],
               lpmCalls := s.lpmCalls + 1 })
  | Kernel.upm =>
    (upmRes s.upmCalls,
      { s with events := s.events ++ [⟨Kernel.upm, phase, degree, x, target⟩],
               upmCalls := s.upmCalls + 1 })

/-- The report printed at `pm.cpp` lines 79-87: the two timings, the sample
size, the parameters, and the two kernel values. -/
structure Report where
  N : Nat
  degree : DVal
  target : DVal
  lpm_ms : Int
  upm_ms : Int
  lpm_val : ℚ
  upm_val : ℚ
deriving DecidableEq

/-- Everything observable about a successful run of `main`: the generated
sample sequence, the trace of kernel invocations, the final `guard` value and
the printed report. -/
structure RunResult where
  data : List ℚ
  events : List KCall
  guard : ℚ
  report : Report
deriving DecidableEq

/-- The body of `main` after argument resolution (`pm.cpp` lines 56-87):
generate the data (lines 56-59), warm up both kernels into `guard`
(lines 61-64), time LPM then UPM with `bench_best_ms` (lines 69-76, clock
reads are numbered globally in program order), and build the report
(lines 79-87).  `draws i` is the i-th output of
`std::normal_distribution<double>(0,1)` drawn from `std::mt19937_64`
seeded with the fixed constant `123456789ULL`. -/
def runBench (draws : Nat → ℚ) (lpmRes upmRes : Nat → ℚ) (clock : Nat → Int)
    (N : Nat) (degree target : DVal) : RunResult :=
  let x : List ℚ := (List.range N).map draws
  let s0 : St := ⟨[], 0, 0, 0, 0, 0⟩
  let w1 := kcall lpmRes upmRes Kernel.lpm Phase.warmup degree x target s0
  let s1 : St := { w1.2 with guard := w1.2.guard + w1.1 }
  let w2 := kcall lpmRes upmRes Kernel.upm Phase.warmup degree x target s1
  let s2 : St := { w2.2 with guard := w2.2.guard + w2.1 }
  let fnL : St → St := fun s =>
    let c := kcall lpmRes upmRes Kernel.lpm Phase.timed degree x target s
    { c.2 with lpm_val := c.1 }
  let fnU : St → St := fun s =>
    let c := kcall lpmRes upmRes Kernel.upm Phase.timed degree x target s
    { c.2 with upm_val := c.1 }
  let bL := bench_best_ms clock fnL 3 (s2, 0)
  let bU := bench_best_ms clock fnU 3 bL.1
  let s4 : St := bU.1.1
  { data := x, events := s4.events, guard := s4.guard,
    report := { N := N, degree := degree, target := target,
                lpm_ms := bL.2, upm_ms := bU.2,
                lpm_val := s4.lpm_val, upm_val := s4.upm_val } }

/-- `main` (`pm.cpp` lines 45-91): resolve the arguments (a parse failure
throws, terminating the process before any data generation, kernel call or
output, modelled as `Except.error ()`), then run the benchmark body. -/
def runMain (draws : Nat → ℚ) (lpmRes upmRes : Nat → ℚ) (clock : Nat → Int)
    (args : List String) : Except Unit RunResult :=
  match resolveParams args with
  | none => Except.error ()
  | some (N, degree, target) =>
    Except.ok (runBench draws lpmRes upmRes clock N degree target)

/-- A steady-clock trace (readings in nanoseconds) whose three successive
measured durations are 5.7 ms, 2.9 ms and 8.6 ms, rounding down to 5 ms,
2 ms and 8 ms. -/
def cl3 : Nat → Int := fun k =>
  List.getD [0, 5700000, 5700000, 8600000, 8600000, 17200000] k 0

/-- Concrete draw stream used to instantiate witnesses. -/
def drawsW : Nat → ℚ := fun n => (n : ℚ)

/-- Concrete LPM result stream used to instantiate witnesses (call n returns
n + 1, so the warm-up value differs from every timed value). -/
def lpmResW : Nat → ℚ := fun n => (n : ℚ) + 1

/-- Concrete UPM result stream used to instantiate witnesses. -/
def upmResW : Nat → ℚ := fun n => (n : ℚ) + 2

/-- Concrete monotone clock used to instantiate witnesses. -/
def clockW : Nat → Int := fun k => (k : Int)

/-- Closed form of a benchmark run: the warm-up calls come first (kernel call
index 0 for each kernel), then three timed LPM calls (indices 1-3, clock
reads 0-5), then three timed UPM calls (indices 1-3, clock reads 6-11); the
displayed values are those of each kernel's call index 3, i.e. the last timed
iteration, and `guard` accumulates exactly the two warm-up values. -/
theorem runBench_eq (draws lpmRes upmRes : Nat → ℚ) (clock : Nat → Int)
    (N : Nat) (degree target : DVal) :
    runBench draws lpmRes upmRes clock N degree target =
    { data := (List.range N).map draws,
      events :=
        [⟨Kernel.lpm, Phase.warmup, degree, (List.range N).map draws, target⟩,
         ⟨Kernel.upm, Phase.warmup, degree, (List.range N).map draws, target⟩,
         ⟨Kernel.lpm, Phase.timed, degree, (List.range N).map draws, target⟩,
         ⟨Kernel.lpm, Phase.timed, degree, (List.range N).map draws, target⟩,
         ⟨Kernel.lpm, Phase.timed, degree, (List.range N).map draws, target⟩,
         ⟨Kernel.upm, Phase.timed, degree, (List.range N).map draws, target⟩,
         ⟨Kernel.upm, Phase.timed, degree, (List.range N).map draws, target⟩,
         ⟨Kernel.upm, Phase.timed, degree, (List.range N).map draws, target⟩],
      guard := 0 + lpmRes 0 + upmRes 0,
      report :=
        { N := N
          degree := degree
          target := target
          lpm_ms := min (min (min LLONG_MAX
            (Int.tdiv (clock 1 - clock 0) 1000000))
            (Int.tdiv (clock 3 - clock 2) 1000000))
            (Int.tdiv (clock 5 - clock 4) 1000000)
          upm_ms := min (min (min LLONG_MAX
            (Int.tdiv (clock 7 - clock 6) 1000000))
            (Int.tdiv (clock 9 - clock 8) 1000000))
            (Int.tdiv (clock 11 - clock 10) 1000000)
          lpm_val := lpmRes 3
          upm_val := upmRes 3 } } := rfl

/-- Each loop iteration applies the computation once: after `n` iterations
the state is `fn^[n] s`. -/
theorem benchLoop_fst (clock : Nat → Int) {σ : Type} (fn : σ → σ) :
    ∀ (n : Nat) (s : σ) (k : Nat) (b : Int),
      (benchLoop clock fn n (s, k) b).1.1 = fn^[n] s := by
  intro n
  induction n with
  | zero => intro s k b; rfl
  | succ n ih =>
    intro s k b
    have h1 : benchLoop clock fn (n + 1) (s, k) b =
        benchLoop clock fn n (fn s, k + 2)
          (min b (Int.tdiv (clock (k + 1) - clock k) 1000000)) := rfl
    rw [h1, ih, ← Function.iterate_succ_apply]

/-- Unfolding one step of the measured-duration list. -/
theorem durList_succ (clock : Nat → Int) (k n : Nat) :
    durList clock k (n + 1) =
      Int.tdiv (clock (k + 1) - clock k) 1000000 :: durList clock (k + 2) n := by
  unfold durList
  rw [List.range_succ_eq_map, List.map_cons, List.map_map]
  refine congrArg₂ List.cons (by norm_num) ?_
  refine List.map_congr_left fun i _ => ?_
  have h1 : k + 2 * (i + 1) = k + 2 + 2 * i := by ring
  have h2 : k + 2 * (i + 1) + 1 = k + 2 + 2 * i + 1 := by ring
  simp only [Function.comp_apply, h1, h2]

/-- The best-so-far tracking of `bench_best_ms` is a `min`-fold over the list
of measured durations. -/
theorem benchLoop_best (clock : Nat → Int) {σ : Type} (fn : σ → σ) :
    ∀ (n : Nat) (s : σ) (k : Nat) (b : Int),
      (benchLoop clock fn n (s, k) b).2 = (durList clock k n).foldl min b := by
  intro n
  induction n with
  | zero => intro s k b; rfl
  | succ n ih =>
    intro s k b
    have h1 : benchLoop clock fn (n + 1) (s, k) b =
        benchLoop clock fn n (fn s, k + 2)
          (min b (Int.tdiv (clock (k + 1) - clock k) 1000000)) := rfl
    rw [h1, ih, durList_succ]
    rfl

/-- A `min`-fold is bounded by its initial accumulator. -/
theorem foldl_min_le_init : ∀ (l : List Int) (b : Int), l.foldl min b ≤ b := by
  intro l
  induction l with
  | nil => intro b; exact le_refl b
  | cons a l ih => intro b; exact le_trans (ih (min b a)) (min_le_left _ _)

/-- A `min`-fold is a lower bound of the list. -/
theorem foldl_min_le : ∀ (l : List Int) (b x : Int), x ∈ l → l.foldl min b ≤ x := by
  intro l
  induction l with
  | nil => intro _ x hx; cases hx
  | cons a l ih =>
    intro b x hx
    rcases List.mem_cons.1 hx with rfl | hx
    · exact le_trans (foldl_min_le_init l (min b x)) (min_le_right _ _)
    · exact ih (min b a) x hx

/-- A `min`-fold is either the initial accumulator or an element of the
list. -/
theorem foldl_min_eq_or_mem : ∀ (l : List Int) (b : Int),
    l.foldl min b = b ∨ l.foldl min b ∈ l := by
  intro l
  induction l with
  | nil => intro b; exact Or.inl rfl
  | cons a l ih =>
    intro b
    rcases ih (min b a) with h | h
    · rcases le_total b a with hba | hab
      · exact Or.inl (by rw [List.foldl_cons, h, min_eq_left hba])
      · exact Or.inr (by rw [List.foldl_cons, h, min_eq_right hab]; exact List.mem_cons_self a l)
    · exact Or.inr (List.mem_cons_of_mem a h)

/-- On a successful parse, `main` is the benchmark body applied to the
resolved parameters. -/
theorem runMain_eq_ok (draws lpmRes upmRes : Nat → ℚ) (clock : Nat → Int)
    (args : List String) (N : Nat) (degree target : DVal)
    (h : resolveParams args = some (N, degree, target)) :
    runMain draws lpmRes upmRes clock args =
      Except.ok (runBench draws lpmRes upmRes clock N degree target) := by
  unfold runMain
  rw [h]

/-- The resolved sample size is the `size_t` conversion of the value parsed
from the first token. -/
theorem resolveParams_size (args : List String) (N : Nat) (degree target : DVal)
    (h : resolveParams args = some (N, degree, target)) (s1 : String) (v : Int)
    (hs1 : args[0]? = some s1) (hv : stoll s1 = some v) : N = toSizeT v := by
  rcases h2 : args[1]? with _ | s2
  · rcases h3 : args[2]? with _ | s3
    · simp [resolveParams, hs1, hv, h2, h3] at h
      exact h.1.symm
    · rcases hq3 : stod s3 with _ | q3
      · simp [resolveParams, hs1, hv, h2, h3, hq3] at h
      · simp [resolveParams, hs1, hv, h2, h3, hq3] at h
        exact h.1.symm
  · rcases hq2 : stod s2 with _ | q2
    · simp [resolveParams, hs1, hv, h2, hq2] at h
    · rcases h3 : args[2]? with _ | s3
      · simp [resolveParams, hs1, hv, h2, hq2, h3] at h
        exact h.1.symm
      · rcases hq3 : stod s3 with _ | q3
        · simp [resolveParams, hs1, hv, h2, hq2, h3, hq3] at h
        · simp [resolveParams, hs1, hv, h2, hq2, h3, hq3] at h
          exact h.1.symm

/-- If any supplied token fails to parse, argument resolution fails. -/
theorem resolveParams_eq_none (args : List String)
    (h : (∃ s, args[0]? = some s ∧ stoll s = none) ∨
         (∃ s, args[1]? = some s ∧ stod s = none) ∨
         (∃ s, args[2]? = some s ∧ stod s = none)) :
    resolveParams args = none := by
  rcases h with ⟨s, hs, hp⟩ | ⟨s, hs, hp⟩ | ⟨s, hs, hp⟩
  · simp [resolveParams, hs, hp]
  · rcases h0 : args[0]? with _ | s0
    · simp [resolveParams, h0, hs, hp]
    · rcases hq0 : stoll s0 with _ | v0
      · simp [resolveParams, h0, hq0]
      · simp [resolveParams, h0, hq0, hs, hp]
  · rcases h0 : args[0]? with _ | s0
    · rcases h1 : args[1]? with _ | s1
      · simp [resolveParams, h0, h1, hs, hp]
      · rcases hq1 : stod s1 with _ | q1 <;>
          simp [resolveParams, h0, h1, hq1, hs, hp]
    · rcases hq0 : stoll s0 with _ | v0
      · simp [resolveParams, h0, hq0]
      · rcases h1 : args[1]? with _ | s1
        · simp [resolveParams, h0, hq0, h1, hs, hp]
        · rcases hq1 : stod s1 with _ | q1 <;>
            simp [resolveParams, h0, hq0, h1, hq1, hs, hp]

/-- C1: for every zero-argument computation and repetition count R ≥ 1 (the
default is 3), `bench_best_ms` executes the computation exactly R times
sequentially (final state `fn^[R] s`) and returns the minimum of the R
per-execution elapsed wall-clock durations, each truncated to whole
milliseconds (`durList`); in particular, on a clock trace whose three
successive measured durations round down to 5 ms, 2 ms and 8 ms, the result
with R = 3 is 2 ms.  (The bound hypothesis holds vacuously in C++, where
every `time_ms` value is a `long long`.) -/
theorem bench_best_ms_executes_and_returns_min {σ : Type} (clock : Nat → Int)
    (fn : σ → σ) (s : σ) (k0 : Nat) (R : Nat) (hR : 1 ≤ R)
    (hbound : ∀ d ∈ durList clock k0 R, d ≤ LLONG_MAX) :
    (bench_best_ms clock fn (R : Int) (s, k0)).1.1 = fn^[R] s ∧
    (bench_best_ms clock fn (R : Int) (s, k0)).2 ∈ durList clock k0 R ∧
    (∀ d ∈ durList clock k0 R, (bench_best_ms clock fn (R : Int) (s, k0)).2 ≤ d) ∧
    (bench_best_ms cl3 (fun n : Nat => n + 1) 3 (0, 0)).2 = 2 := by
  have hdef : bench_best_ms clock fn (R : Int) (s, k0) =
      benchLoop clock fn R (s, k0) LLONG_MAX := by
    unfold bench_best_ms
    rw [Int.toNat_natCast]
  refine ⟨?_, ?_, ?_, by decide⟩
  · rw [hdef, benchLoop_fst]
  · rw [hdef, benchLoop_best]
    rcases foldl_min_eq_or_mem (durList clock k0 R) LLONG_MAX with h | h
    · have hlen : 0 < (durList clock k0 R).length := by
        unfold durList
        simp only [List.length_map, List.length_range]
        omega
      obtain ⟨x, hx⟩ := List.exists_mem_of_length_pos hlen
      have h1 : (durList clock k0 R).foldl min LLONG_MAX ≤ x := foldl_min_le _ _ _ hx
      have h2 : x = LLONG_MAX := le_antisymm (hbound x hx) (h ▸ h1)
      rw [h, ← h2]
      exact hx
    · exact h
  · intro d hd
    rw [hdef, benchLoop_best]
    exact foldl_min_le _ _ _ hd

/-- Witness for `bench_best_ms_executes_and_returns_min` at R = 3 on the
concrete clock trace `cl3` with the successor computation on `Nat`. -/
theorem bench_best_ms_executes_and_returns_min_witness :
    1 ≤ 3 ∧ (∀ d ∈ durList cl3 0 3, d ≤ LLONG_MAX) ∧
    ((bench_best_ms cl3 (fun n : Nat => n + 1) ((3 : Nat) : Int) (0, 0)).1.1 =
        (fun n : Nat => n + 1)^[3] 0 ∧
      (bench_best_ms cl3 (fun n : Nat => n + 1) ((3 : Nat) : Int) (0, 0)).2 ∈
        durList cl3 0 3 ∧
      (∀ d ∈ durList cl3 0 3,
        (bench_best_ms cl3 (fun n : Nat => n + 1) ((3 : Nat) : Int) (0, 0)).2 ≤ d) ∧
      (bench_best_ms cl3 (fun n : Nat => n + 1) 3 (0, 0)).2 = 2) :=
  ⟨by decide, by decide,
   bench_best_ms_executes_and_returns_min cl3 (fun n : Nat => n + 1) 0 0 3
     (by decide) (by decide)⟩

/-- C9: under the hypothesis that the monotonic steady clock is
non-decreasing, every value returned by `bench_best_ms` is a non-negative
number of milliseconds (for any repetition count, including the seed value
`LLONG_MAX` when no iteration runs). -/
theorem bench_best_ms_nonneg (clock : Nat → Int) {σ : Type} (fn : σ → σ)
    (s : σ) (k0 : Nat) (reps : Int) (hmono : ∀ k, clock k ≤ clock (k + 1)) :
    0 ≤ (bench_best_ms clock fn reps (s, k0)).2 := by
  unfold bench_best_ms
  rw [benchLoop_best]
  rcases foldl_min_eq_or_mem (durList clock k0 reps.toNat) LLONG_MAX with h | h
  · rw [h]
    unfold LLONG_MAX
    norm_num
  · unfold durList at h ⊢
    obtain ⟨i, _, hEq⟩ := List.mem_map.1 h
    rw [← hEq]
    refine Int.tdiv_nonneg ?_ (by norm_num)
    have hm := hmono (k0 + 2 * i)
    omega

/-- Witness for `bench_best_ms_nonneg` on the identity-reading clock. -/
theorem bench_best_ms_nonneg_witness :
    (∀ k, clockW k ≤ clockW (k + 1)) ∧
    0 ≤ (bench_best_ms clockW (fun u : Unit => u) 3 ((), 0)).2 :=
  ⟨fun k => Int.ofNat_le.mpr (Nat.le_succ k),
   bench_best_ms_nonneg clockW (fun u : Unit => u) () 0 3
     (fun k => Int.ofNat_le.mpr (Nat.le_succ k))⟩

/-- C10: called with a repetition count `reps ≤ 0`, `bench_best_ms` invokes
the computation zero times (the state is returned unchanged) and returns
`std::numeric_limits<long long>::max() = 9223372036854775807` rather than a
measured duration. -/
theorem bench_best_ms_nonpos_reps {σ : Type} (clock : Nat → Int) (fn : σ → σ)
    (s : σ) (k0 : Nat) (reps : Int) (h : reps ≤ 0) :
    (bench_best_ms clock fn reps (s, k0)).1.1 = s ∧
    (bench_best_ms clock fn reps (s, k0)).2 = 9223372036854775807 := by
  unfold bench_best_ms
  rw [Int.toNat_of_nonpos h]
  exact ⟨rfl, rfl⟩

/-- Witness for `bench_best_ms_nonpos_reps` at reps = -2. -/
theorem bench_best_ms_nonpos_reps_witness :
    (-2 : Int) ≤ 0 ∧
    ((bench_best_ms clockW (fun n : Nat => n + 1) (-2) (5, 0)).1.1 = 5 ∧
     (bench_best_ms clockW (fun n : Nat => n + 1) (-2) (5, 0)).2 = 9223372036854775807) :=
  ⟨by decide,
   bench_best_ms_nonpos_reps clockW (fun n : Nat => n + 1) 5 0 (-2) (by decide)⟩

/-- C2: on every successful run, the event trace splits as warm-up events
followed by timed events — both kernels are invoked once in the warm-up
prefix, every timed invocation comes after it — and the side-effect
observable `guard` accumulator holds exactly the sum of the two warm-up
results (each kernel's invocation number 0). -/
theorem runMain_warmup_before_timed (draws lpmRes upmRes : Nat → ℚ)
    (clock : Nat → Int) (args : List String) (N : Nat) (degree target : DVal)
    (h : resolveParams args = some (N, degree, target)) :
    ∃ r, runMain draws lpmRes upmRes clock args = Except.ok r ∧
      (∃ w t, r.events = w ++ t ∧
        (∀ e ∈ w, e.phase = Phase.warmup) ∧
        (∀ e ∈ t, e.phase = Phase.timed) ∧
        (∃ e ∈ w, e.ker = Kernel.lpm) ∧ (∃ e ∈ w, e.ker = Kernel.upm)) ∧
      r.guard = lpmRes 0 + upmRes 0 := by
  refine ⟨_, runMain_eq_ok draws lpmRes upmRes clock args N degree target h, ?_, ?_⟩
  · refine ⟨[⟨Kernel.lpm, Phase.warmup, degree, (List.range N).map draws, target⟩,
             ⟨Kernel.upm, Phase.warmup, degree, (List.range N).map draws, target⟩],
            [⟨Kernel.lpm, Phase.timed, degree, (List.range N).map draws, target⟩,
             ⟨Kernel.lpm, Phase.timed, degree, (List.range N).map draws, target⟩,
             ⟨Kernel.lpm, Phase.timed, degree, (List.range N).map draws, target⟩,
             ⟨Kernel.upm, Phase.timed, degree, (List.range N).map draws, target⟩,
             ⟨Kernel.upm, Phase.timed, degree, (List.range N).map draws, target⟩,
             ⟨Kernel.upm, Phase.timed, degree, (List.range N).map draws, target⟩],
            rfl, ?_, ?_, ?_, ?_⟩
    · intro e he
      fin_cases he <;> rfl
    · intro e he
      fin_cases he <;> rfl
    · exact ⟨⟨Kernel.lpm, Phase.warmup, degree, (List.range N).map draws, target⟩,
        by simp, rfl⟩
    · exact ⟨⟨Kernel.upm, Phase.warmup, degree, (List.range N).map draws, target⟩,
        by simp, rfl⟩
  · show (0 : ℚ) + lpmRes 0 + upmRes 0 = lpmRes 0 + upmRes 0
    rw [zero_add]

/-- Witness for `runMain_warmup_before_timed` at args = ["1"]. -/
theorem runMain_warmup_before_timed_witness :
    resolveParams ["1"] = some (1, DVal.finite 2, DVal.finite 0) ∧
    (∃ r, runMain drawsW lpmResW upmResW clockW ["1"] = Except.ok r ∧
      (∃ w t, r.events = w ++ t ∧
        (∀ e ∈ w, e.phase = Phase.warmup) ∧
        (∀ e ∈ t, e.phase = Phase.timed) ∧
        (∃ e ∈ w, e.ker = Kernel.lpm) ∧ (∃ e ∈ w, e.ker = Kernel.upm)) ∧
      r.guard = lpmResW 0 + upmResW 0) :=
  ⟨by decide,
   runMain_warmup_before_timed drawsW lpmResW upmResW clockW ["1"] 1 (DVal.finite 2) (DVal.finite 0) (by decide)⟩

/-- C3: the reported kernel values are exactly the values produced by the
last iteration of the corresponding timed loop — invocation number 3 of each
kernel (number 0 being the warm-up call, numbers 1-3 the three timed calls) —
and therefore never the warm-up values whenever those differ. -/
theorem runMain_reported_values_from_last_timed (draws lpmRes upmRes : Nat → ℚ)
    (clock : Nat → Int) (args : List String) (N : Nat) (degree target : DVal)
    (h : resolveParams args = some (N, degree, target)) :
    ∃ r, runMain draws lpmRes upmRes clock args = Except.ok r ∧
      r.report.lpm_val = lpmRes 3 ∧ r.report.upm_val = upmRes 3 ∧
      (lpmRes 0 ≠ lpmRes 3 → r.report.lpm_val ≠ lpmRes 0) ∧
      (upmRes 0 ≠ upmRes 3 → r.report.upm_val ≠ upmRes 0) := by
  refine ⟨_, runMain_eq_ok draws lpmRes upmRes clock args N degree target h,
    rfl, rfl, ?_, ?_⟩
  · intro hne heq
    exact hne heq.symm
  · intro hne heq
    exact hne heq.symm

/-- Witness for `runMain_reported_values_from_last_timed` at args = ["1"]. -/
theorem runMain_reported_values_from_last_timed_witness :
    resolveParams ["1"] = some (1, DVal.finite 2, DVal.finite 0) ∧
    (∃ r, runMain drawsW lpmResW upmResW clockW ["1"] = Except.ok r ∧
      r.report.lpm_val = lpmResW 3 ∧ r.report.upm_val = upmResW 3 ∧
      (lpmResW 0 ≠ lpmResW 3 → r.report.lpm_val ≠ lpmResW 0) ∧
      (upmResW 0 ≠ upmResW 3 → r.report.upm_val ≠ upmResW 0)) :=
  ⟨by decide,
   runMain_reported_values_from_last_timed drawsW lpmResW upmResW clockW ["1"] 1 (DVal.finite 2) (DVal.finite 0)
     (by decide)⟩

/-- C4: the generated sample sequence is a deterministic function of the
resolved sample size and the fixed seed alone: two runs with the same
arguments and the same seeded draw stream — but arbitrarily different clocks
and kernel behaviours — produce bit-identical data sequences. -/
theorem runMain_data_deterministic (draws lpmRes1 upmRes1 lpmRes2 upmRes2 : Nat → ℚ)
    (clock1 clock2 : Nat → Int) (args : List String) :
    Except.map RunResult.data (runMain draws lpmRes1 upmRes1 clock1 args) =
    Except.map RunResult.data (runMain draws lpmRes2 upmRes2 clock2 args) := by
  unfold runMain
  rcases h : resolveParams args with _ | p
  · rfl
  · obtain ⟨N, degree, target⟩ := p
    rfl

set_option maxRecDepth 8000 in
/-- C5: with no arguments the resolver yields the defaults
(12,000,000; 2; 0); with arguments "500000" "3" "0.1" it yields exactly
(500000, 3, 1/10) — token 1 through integer parsing, tokens 2 and 3 through
real parsing. -/
theorem resolveParams_defaults_and_override :
    resolveParams [] = some (12000000, DVal.finite 2, DVal.finite 0) ∧
    resolveParams ["500000", "3", "0.1"] = some (500000, DVal.finite 3, DVal.finite (mkRat 1 10)) :=
  ⟨by decide, by decide⟩

/-- C6: if any supplied token fails to parse — no possible conversion
(`std::invalid_argument`) or an out-of-range value (`std::out_of_range`, e.g.
an over-range real such as "1e400" or an integer outside `long long`), for
integer parsing of token 1 or real parsing of tokens 2/3 — the program
terminates fatally before producing anything: `main` evaluates to the error
outcome, which carries no data, no kernel invocation, and no report.  Inputs
`std::stod` accepts, such as `inf`/`nan` spellings and hexadecimal floats,
are not failures: the run proceeds (see `stod`). -/
theorem runMain_parse_failure_fatal (draws lpmRes upmRes : Nat → ℚ)
    (clock : Nat → Int) (args : List String)
    (h : (∃ s, args[0]? = some s ∧ stoll s = none) ∨
         (∃ s, args[1]? = some s ∧ stod s = none) ∨
         (∃ s, args[2]? = some s ∧ stod s = none)) :
    runMain draws lpmRes upmRes clock args = Except.error () ∧
    ∀ r, runMain draws lpmRes upmRes clock args ≠ Except.ok r := by
  have hn := resolveParams_eq_none args h
  have he : runMain draws lpmRes upmRes clock args = Except.error () := by
    unfold runMain
    rw [hn]
  exact ⟨he, fun r hr => by rw [he] at hr; exact Except.noConfusion hr⟩

set_option maxRecDepth 8000 in
/-- Witness for `runMain_parse_failure_fatal` on a malformed integer token
and on an out-of-range real token. -/
theorem runMain_parse_failure_fatal_witness :
    ((∃ s, (["x"] : List String)[0]? = some s ∧ stoll s = none) ∨
     (∃ s, (["x"] : List String)[1]? = some s ∧ stod s = none) ∨
     (∃ s, (["x"] : List String)[2]? = some s ∧ stod s = none)) ∧
    (runMain drawsW lpmResW upmResW clockW ["x"] = Except.error () ∧
     ∀ r, runMain drawsW lpmResW upmResW clockW ["x"] ≠ Except.ok r) ∧
    ((∃ s, (["5", "1e400"] : List String)[0]? = some s ∧ stoll s = none) ∨
     (∃ s, (["5", "1e400"] : List String)[1]? = some s ∧ stod s = none) ∨
     (∃ s, (["5", "1e400"] : List String)[2]? = some s ∧ stod s = none)) ∧
    (runMain drawsW lpmResW upmResW clockW ["5", "1e400"] = Except.error () ∧
     ∀ r, runMain drawsW lpmResW upmResW clockW ["5", "1e400"] ≠ Except.ok r) :=
  ⟨Or.inl ⟨"x", rfl, by decide⟩,
   runMain_parse_failure_fatal drawsW lpmResW upmResW clockW ["x"]
     (Or.inl ⟨"x", rfl, by decide⟩),
   Or.inr (Or.inl ⟨"1e400", rfl, by decide⟩),
   runMain_parse_failure_fatal drawsW lpmResW upmResW clockW ["5", "1e400"]
     (Or.inr (Or.inl ⟨"1e400", rfl, by decide⟩))⟩

/-- C7 counterexample: the claim that the parsed sample-size value is used
unchanged as the sequence length fails for a negative parsed integer:
on argument "-1", `std::stoll` parses -1, but the `size_t` conversion makes
the resolved sample size 2^64 - 1 = 18446744073709551615, which is not the
parsed value -1. -/
theorem sizeCast_not_unchanged_counterexample :
    stoll "-1" = some (-1) ∧
    resolveParams ["-1"] = some (18446744073709551615, DVal.finite 2, DVal.finite 0) ∧
    ((18446744073709551615 : Int) ≠ (-1 : Int)) :=
  ⟨by decide, by decide, by decide⟩

/-- C7 (amended): no validation beyond type parsing is performed; the parsed
degree and target reach every LPM and UPM invocation exactly as parsed, and
the parsed sample-size value is used as the sequence length after the
`size_t` conversion (`toSizeT`, reduction modulo 2^64) — unchanged whenever
the parsed integer is non-negative, wrapped when it is negative. -/
theorem runMain_args_passthrough (draws lpmRes upmRes : Nat → ℚ)
    (clock : Nat → Int) (args : List String) (N : Nat) (degree target : DVal)
    (h : resolveParams args = some (N, degree, target)) :
    ∃ r, runMain draws lpmRes upmRes clock args = Except.ok r ∧
      (∀ e ∈ r.events, e.degree = degree ∧ e.target = target ∧ e.data = r.data) ∧
      r.data.length = N ∧
      (∀ s1 v, args[0]? = some s1 → stoll s1 = some v → N = toSizeT v) := by
  refine ⟨_, runMain_eq_ok draws lpmRes upmRes clock args N degree target h,
    ?_, ?_, ?_⟩
  · intro e he
    rw [runBench_eq] at he
    simp only [List.mem_cons, List.not_mem_nil, or_false] at he
    rcases he with rfl | rfl | rfl | rfl | rfl | rfl | rfl | rfl <;> exact ⟨rfl, rfl, rfl⟩
  · show ((List.range N).map draws).length = N
    simp
  · intro s1 v hs1 hv
    exact resolveParams_size args N degree target h s1 v hs1 hv

/-- Witness for `runMain_args_passthrough` at args = ["1"]. -/
theorem runMain_args_passthrough_witness :
    resolveParams ["1"] = some (1, DVal.finite 2, DVal.finite 0) ∧
    (∃ r, runMain drawsW lpmResW upmResW clockW ["1"] = Except.ok r ∧
      (∀ e ∈ r.events, e.degree = DVal.finite 2 ∧ e.target = DVal.finite 0 ∧ e.data = r.data) ∧
      r.data.length = 1 ∧
      (∀ s1 v, (["1"] : List String)[0]? = some s1 → stoll s1 = some v →
        1 = toSizeT v)) :=
  ⟨by decide,
   runMain_args_passthrough drawsW lpmResW upmResW clockW ["1"] 1 (DVal.finite 2) (DVal.finite 0) (by decide)⟩

/-- C8: the generated sample sequence has exactly the resolved sample-size
length, and that same sequence (hence that same length) is what every
warm-up and timed kernel invocation receives and what the report prints as
the sample size. -/
theorem runMain_length_invariant (draws lpmRes upmRes : Nat → ℚ)
    (clock : Nat → Int) (args : List String) (N : Nat) (degree target : DVal)
    (h : resolveParams args = some (N, degree, target)) :
    ∃ r, runMain draws lpmRes upmRes clock args = Except.ok r ∧
      r.data.length = N ∧ r.report.N = N ∧
      ∀ e ∈ r.events, e.data = r.data := by
  refine ⟨_, runMain_eq_ok draws lpmRes upmRes clock args N degree target h,
    ?_, rfl, ?_⟩
  · show ((List.range N).map draws).length = N
    simp
  · intro e he
    rw [runBench_eq] at he
    simp only [List.mem_cons, List.not_mem_nil, or_false] at he
    rcases he with rfl | rfl | rfl | rfl | rfl | rfl | rfl | rfl <;> rfl

/-- Witness for `runMain_length_invariant` at args = ["1"]. -/
theorem runMain_length_invariant_witness :
    resolveParams ["1"] = some (1, DVal.finite 2, DVal.finite 0) ∧
    (∃ r, runMain drawsW lpmResW upmResW clockW ["1"] = Except.ok r ∧
      r.data.length = 1 ∧ r.report.N = 1 ∧
      ∀ e ∈ r.events, e.data = r.data) :=
  ⟨by decide,
   runMain_length_invariant drawsW lpmResW upmResW clockW ["1"] 1 (DVal.finite 2) (DVal.finite 0) (by decide)⟩

end PM
